import Mathlib

/-!
Verification of the eraser custom-scanner template (`src/example/main.go`).

The file embeds the `scan` function of both source variants over an explicit
filesystem model: the walk performed by `fs.WalkDir` is represented by the
list of callback invocations it makes, in order.  Times and durations are
integers (Go `time.Duration` nanoseconds); `time.Since(created)` is
`now - created` for an explicit `now`.
-/

set_option autoImplicit false

namespace EraserScanner

/-- Embeds `unversioned.Image` (the fields used by this program): an image
identifier, a list of names, and a list of content digests. -/
structure Image where
  imageID : String
  names : List String
  digests : List String
deriving DecidableEq

/-- One invocation of the `fs.WalkDir` callback:
`errEntry` is a call with `err != nil` (e.g. an unreadable directory),
`dirEntry name` a call where `d.IsDir()` holds, and
`fileEntry name info` a call for a regular file with base name `name`
(`d.Name()`), where `info` is the creation time `ctime.Created(info)` when
`d.Info()` succeeds and `none` when it fails. -/
inductive WalkEntry where
  | errEntry : WalkEntry
  | dirEntry : String → WalkEntry
  | fileEntry : String → Option Int → WalkEntry
deriving DecidableEq

/-- The characters of the literal prefix stripped by
`strings.TrimPrefix(dgst, "sha256:")`. -/
def sha256Chars : List Char := ['s', 'h', 'a', '2', '5', '6', ':']

/-- Embeds `strings.TrimPrefix(dgst, "sha256:")`: drop the prefix when
present, otherwise return the string unchanged. -/
def trimSha256 (dgst : String) : String :=
  if dgst.data.take 7 = sha256Chars then String.mk (dgst.data.drop 7) else dgst

/-- Go map assignment `m[k] = v` on an association-list model of
`map[string]unversioned.Image`: overwrite the entry for `k` if present,
otherwise add it. -/
def mapInsert : List (String × Image) → String → Image → List (String × Image)
  | [], k, v => [(k, v)]
  | (k', v') :: rest, k, v =>
    if k' = k then (k, v) :: rest else (k', v') :: mapInsert rest k v

/-- Go map lookup `m[k]` on the association-list model: `some v` when the
key is present, `none` otherwise. -/
def mapLookup : List (String × Image) → String → Option Image
  | [], _ => none
  | (k', v') :: rest, k => if k' = k then some v' else mapLookup rest k

/-- Embeds the digest-index construction of `scan` (first variant,
`main.go` lines 94-100): for each image in order, for each of its digests
in order, insert the image under the digest with any `sha256:` prefix
stripped. -/
def digestIndex (allImages : List Image) : List (String × Image) :=
  allImages.foldl
    (fun m img => img.digests.foldl (fun m dgst => mapInsert m (trimSha256 dgst) img) m)
    []

/-- Embeds the `fs.WalkDir` loop of `scan` (first variant, `main.go` lines
103-128) with its callback inlined: process the walk entries in order,
threading the `nonCompliant` and `failedImages` accumulators.  A callback
invocation with a non-nil error returns that error, aborting the walk
(`Except.error`); a directory is skipped; a file whose base name is not in
the digest index is skipped; a matched file whose metadata read fails
appends the image to `failedImages` and continues; otherwise the image is
appended to `nonCompliant` exactly when `now - created > maxAge`. -/
def scanWalk (digests : List (String × Image)) (now maxAge : Int) :
    List WalkEntry → List Image → List Image → Except Unit (List Image × List Image)
  | [], nonCompliant, failedImages => .ok (nonCompliant, failedImages)
  | .errEntry :: _, _, _ => .error ()
  | .dirEntry _ :: rest, nonCompliant, failedImages =>
    scanWalk digests now maxAge rest nonCompliant failedImages
  | .fileEntry name info :: rest, nonCompliant, failedImages =>
    match mapLookup digests name with
    | none => scanWalk digests now maxAge rest nonCompliant failedImages
    | some img =>
      match info with
      | none => scanWalk digests now maxAge rest nonCompliant (failedImages ++ [img])
      | some created =>
        if now - created > maxAge then
          scanWalk digests now maxAge rest (nonCompliant ++ [img]) failedImages
        else
          scanWalk digests now maxAge rest nonCompliant failedImages

/-- Embeds `scan` (first variant, `main.go` lines 89-135): build the digest
index, walk the filesystem, and return `(nonCompliant, failedImages)`; when
the walk returns an error, return the empty list and the full input list
instead. -/
def scan (allImages : List Image) (fsEntries : List WalkEntry) (now maxAge : Int) :
    List Image × List Image :=
  match scanWalk (digestIndex allImages) now maxAge fsEntries [] [] with
  | .ok res => res
  | .error _ => ([], allImages)

example :
    scan [⟨"a", [], ["sha256:d1"]⟩, ⟨"b", [], ["sha256:d2"]⟩]
      [WalkEntry.dirEntry ".", WalkEntry.fileEntry "d1" (some 0),
        WalkEntry.fileEntry "d2" (some 95)] 100 10 =
      ([⟨"a", [], ["sha256:d1"]⟩], []) := by decide

example :
    scan [⟨"a", [], ["sha256:d1"]⟩] [WalkEntry.errEntry] 100 10 =
      ([], [⟨"a", [], ["sha256:d1"]⟩]) := by decide

/-- The images a single walk entry contributes to `nonCompliant`: a matched
regular file with readable creation time older than `maxAge`, nothing
otherwise. -/
def entryNC (digests : List (String × Image)) (now maxAge : Int) : WalkEntry → List Image
  | .fileEntry name (some created) =>
    match mapLookup digests name with
    | some img => if now - created > maxAge then [img] else []
    | none => []
  | _ => []

/-- The images a single walk entry contributes to `failedImages`: a matched
regular file whose metadata read fails, nothing otherwise. -/
def entryFailed (digests : List (String × Image)) : WalkEntry → List Image
  | .fileEntry name none =>
    match mapLookup digests name with
    | some img => [img]
    | none => []
  | _ => []

/-- Concatenation of the per-entry `nonCompliant` contributions. -/
def collectNC (digests : List (String × Image)) (now maxAge : Int) : List WalkEntry → List Image
  | [] => []
  | e :: rest => entryNC digests now maxAge e ++ collectNC digests now maxAge rest

/-- Concatenation of the per-entry `failedImages` contributions. -/
def collectFailed (digests : List (String × Image)) : List WalkEntry → List Image
  | [] => []
  | e :: rest => entryFailed digests e ++ collectFailed digests rest

theorem scanWalk_of_noErr (digests : List (String × Image)) (now maxAge : Int) :
    ∀ (entries : List WalkEntry) (nc fl : List Image),
      WalkEntry.errEntry ∉ entries →
      scanWalk digests now maxAge entries nc fl =
        .ok (nc ++ collectNC digests now maxAge entries, fl ++ collectFailed digests entries)
  | [], nc, fl, _ => by simp [scanWalk, collectNC, collectFailed]
  | e :: rest, nc, fl, h => by
    have hne : e ≠ WalkEntry.errEntry := fun he => h (he ▸ List.mem_cons_self e rest)
    have hrest : WalkEntry.errEntry ∉ rest := fun hr => h (List.mem_cons_of_mem e hr)
    cases e with
    | errEntry => exact absurd rfl hne
    | dirEntry name =>
      simp [scanWalk, collectNC, collectFailed, entryNC, entryFailed,
        scanWalk_of_noErr digests now maxAge rest nc fl hrest]
    | fileEntry name info =>
      cases hl : mapLookup digests name with
      | none =>
        cases info <;>
          simp [scanWalk, collectNC, collectFailed, entryNC, entryFailed, hl,
            scanWalk_of_noErr digests now maxAge rest nc fl hrest]
      | some img =>
        cases info with
        | none =>
          simp [scanWalk, collectNC, collectFailed, entryNC, entryFailed, hl,
            scanWalk_of_noErr digests now maxAge rest nc (fl ++ [img]) hrest]
        | some created =>
          by_cases hage : now - created > maxAge
          · simp [scanWalk, collectNC, collectFailed, entryNC, entryFailed, hl, hage,
              scanWalk_of_noErr digests now maxAge rest (nc ++ [img]) fl hrest]
          · simp [scanWalk, collectNC, collectFailed, entryNC, entryFailed, hl, hage,
              scanWalk_of_noErr digests now maxAge rest nc fl hrest]

theorem scanWalk_of_err (digests : List (String × Image)) (now maxAge : Int) :
    ∀ (entries : List WalkEntry) (nc fl : List Image),
      WalkEntry.errEntry ∈ entries →
      scanWalk digests now maxAge entries nc fl = .error ()
  | [], _, _, h => absurd h (List.not_mem_nil _)
  | e :: rest, nc, fl, h => by
    cases e with
    | errEntry => simp [scanWalk]
    | dirEntry name =>
      have hr : WalkEntry.errEntry ∈ rest := by
        rcases List.mem_cons.mp h with h' | h'
        · exact absurd h'.symm (by simp)
        · exact h'
      simp [scanWalk, scanWalk_of_err digests now maxAge rest nc fl hr]
    | fileEntry name info =>
      have hr : WalkEntry.errEntry ∈ rest := by
        rcases List.mem_cons.mp h with h' | h'
        · exact absurd h'.symm (by simp)
        · exact h'
      cases hl : mapLookup digests name with
      | none => simp [scanWalk, hl, scanWalk_of_err digests now maxAge rest nc fl hr]
      | some img =>
        cases info with
        | none => simp [scanWalk, hl, scanWalk_of_err digests now maxAge rest nc (fl ++ [img]) hr]
        | some created =>
          by_cases hage : now - created > maxAge <;>
            simp [scanWalk, hl, hage, scanWalk_of_err, hr,
              scanWalk_of_err digests now maxAge rest (nc ++ [img]) fl hr,
              scanWalk_of_err digests now maxAge rest nc fl hr]

theorem scan_of_noErr (allImages : List Image) (fsEntries : List WalkEntry) (now maxAge : Int)
    (h : WalkEntry.errEntry ∉ fsEntries) :
    scan allImages fsEntries now maxAge =
      (collectNC (digestIndex allImages) now maxAge fsEntries,
        collectFailed (digestIndex allImages) fsEntries) := by
  simp [scan, scanWalk_of_noErr (digestIndex allImages) now maxAge fsEntries [] [] h]

theorem scan_of_err (allImages : List Image) (fsEntries : List WalkEntry) (now maxAge : Int)
    (h : WalkEntry.errEntry ∈ fsEntries) :
    scan allImages fsEntries now maxAge = ([], allImages) := by
  simp [scan, scanWalk_of_err (digestIndex allImages) now maxAge fsEntries [] [] h]

theorem mem_collectNC (digests : List (String × Image)) (now maxAge : Int) (img : Image) :
    ∀ entries : List WalkEntry,
      img ∈ collectNC digests now maxAge entries ↔
        ∃ name created, WalkEntry.fileEntry name (some created) ∈ entries ∧
          mapLookup digests name = some img ∧ now - created > maxAge
  | [] => by simp [collectNC]
  | e :: rest => by
    rw [collectNC, List.mem_append, mem_collectNC digests now maxAge img rest]
    constructor
    · rintro (he | ⟨name, created, hmem, hl, hage⟩)
      · cases e with
        | errEntry => simp [entryNC] at he
        | dirEntry n => simp [entryNC] at he
        | fileEntry n info =>
          cases info with
          | none => simp [entryNC] at he
          | some c =>
            rw [entryNC] at he
            cases hl : mapLookup digests n with
            | none => rw [hl] at he; simp at he
            | some img' =>
              rw [hl] at he
              by_cases hage : now - c > maxAge
              · simp [hage] at he
                subst he
                exact ⟨n, c, by simp, hl, hage⟩
              · simp [hage] at he
      · exact ⟨name, created, List.mem_cons_of_mem e hmem, hl, hage⟩
    · rintro ⟨name, created, hmem, hl, hage⟩
      rcases List.mem_cons.mp hmem with he | hr
      · left
        rw [← he]
        simp [entryNC, hl, hage]
      · right
        exact ⟨name, created, hr, hl, hage⟩

theorem mem_collectFailed (digests : List (String × Image)) (img : Image) :
    ∀ entries : List WalkEntry,
      img ∈ collectFailed digests entries ↔
        ∃ name, WalkEntry.fileEntry name none ∈ entries ∧ mapLookup digests name = some img
  | [] => by simp [collectFailed]
  | e :: rest => by
    rw [collectFailed, List.mem_append, mem_collectFailed digests img rest]
    constructor
    · rintro (he | ⟨name, hmem, hl⟩)
      · cases e with
        | errEntry => simp [entryFailed] at he
        | dirEntry n => simp [entryFailed] at he
        | fileEntry n info =>
          cases info with
          | some c => simp [entryFailed] at he
          | none =>
            rw [entryFailed] at he
            cases hl : mapLookup digests n with
            | none => rw [hl] at he; simp at he
            | some img' =>
              rw [hl] at he
              simp at he
              subst he
              exact ⟨n, by simp, hl⟩
      · exact ⟨name, List.mem_cons_of_mem e hmem, hl⟩
    · rintro ⟨name, hmem, hl⟩
      rcases List.mem_cons.mp hmem with he | hr
      · left
        rw [← he]
        simp [entryFailed, hl]
      · right
        exact ⟨name, hr, hl⟩

theorem mapLookup_mapInsert (k k' : String) (v : Image) :
    ∀ m : List (String × Image),
      mapLookup (mapInsert m k v) k' = if k = k' then some v else mapLookup m k'
  | [] => by simp [mapInsert, mapLookup]
  | (k₀, v₀) :: rest => by
    by_cases h₀ : k₀ = k
    · subst h₀
      by_cases h' : k₀ = k'
      · simp [mapInsert, mapLookup, h']
      · simp [mapInsert, mapLookup, h']
    · by_cases h' : k₀ = k'
      · subst h'
        have : ¬ k = k₀ := fun h => h₀ h.symm
        simp [mapInsert, mapLookup, h₀, this]
      · simp [mapInsert, mapLookup, h₀, h', mapLookup_mapInsert k k' v rest]

theorem mapLookup_insertImage (img : Image) (k : String) :
    ∀ (dgsts : List String) (m : List (String × Image)),
      mapLookup (dgsts.foldl (fun m dgst => mapInsert m (trimSha256 dgst) img) m) k =
        if dgsts.any (fun dgst => trimSha256 dgst = k) then some img else mapLookup m k
  | [], m => by simp
  | dgst :: rest, m => by
    rw [List.foldl_cons, mapLookup_insertImage img k rest (mapInsert m (trimSha256 dgst) img),
      mapLookup_mapInsert (trimSha256 dgst) k img m]
    by_cases hrest : rest.any (fun dgst => trimSha256 dgst = k)
    · simp [hrest]
    · by_cases hd : trimSha256 dgst = k <;> simp [hrest, hd]

/-- The image occurring last in the input list that owns a digest whose
bare (prefix-stripped) form equals `k` — the specification's description of
the digest index as last-write-wins over input order. -/
def lastImageWithKey (allImages : List Image) (k : String) : Option Image :=
  allImages.foldl
    (fun acc img => if img.digests.any (fun dgst => trimSha256 dgst = k) then some img else acc)
    none

theorem foldl_pick_acc (k : String) :
    ∀ (imgs : List Image) (acc : Option Image),
      imgs.foldl
          (fun acc img =>
            if img.digests.any (fun dgst => trimSha256 dgst = k) then some img else acc)
          acc =
        match lastImageWithKey imgs k with
        | some img => some img
        | none => acc
  | [], acc => by simp [lastImageWithKey]
  | img :: rest, acc => by
    have hrhs :
        lastImageWithKey (img :: rest) k =
          match lastImageWithKey rest k with
          | some img' => some img'
          | none =>
            if img.digests.any (fun dgst => trimSha256 dgst = k) then some img else none :=
      foldl_pick_acc k rest
        (if img.digests.any (fun dgst => trimSha256 dgst = k) then some img else none)
    have hlhs := foldl_pick_acc k rest
      (if img.digests.any (fun dgst => trimSha256 dgst = k) then some img else acc)
    simp only [List.foldl_cons]
    rw [hlhs, hrhs]
    cases lastImageWithKey rest k with
    | some img' => rfl
    | none =>
      by_cases hd : (img.digests.any fun dgst => trimSha256 dgst = k) = true <;> simp [hd]

theorem lastImageWithKey_cons (img : Image) (rest : List Image) (k : String) :
    lastImageWithKey (img :: rest) k =
      match lastImageWithKey rest k with
      | some img' => some img'
      | none =>
        if img.digests.any (fun dgst => trimSha256 dgst = k) then some img else none :=
  foldl_pick_acc k rest
    (if img.digests.any (fun dgst => trimSha256 dgst = k) then some img else none)

theorem mapLookup_digestIndex_aux (k : String) :
    ∀ (imgs : List Image) (m : List (String × Image)),
      mapLookup
          (imgs.foldl
            (fun m img => img.digests.foldl (fun m dgst => mapInsert m (trimSha256 dgst) img) m)
            m)
          k =
        match lastImageWithKey imgs k with
        | some img => some img
        | none => mapLookup m k
  | [], m => by simp [lastImageWithKey]
  | img :: rest, m => by
    simp only [List.foldl_cons]
    rw [mapLookup_digestIndex_aux k rest
        (img.digests.foldl (fun m dgst => mapInsert m (trimSha256 dgst) img) m),
      mapLookup_insertImage img k img.digests m, lastImageWithKey_cons]
    cases lastImageWithKey rest k with
    | some img' => rfl
    | none =>
      by_cases hd : (img.digests.any fun dgst => trimSha256 dgst = k) = true <;> simp [hd]

theorem mapLookup_digestIndex (imgs : List Image) (k : String) :
    mapLookup (digestIndex imgs) k = lastImageWithKey imgs k := by
  rw [digestIndex, mapLookup_digestIndex_aux k imgs []]
  cases lastImageWithKey imgs k with
  | some img => rfl
  | none => simp [mapLookup]

theorem lastImageWithKey_spec (k : String) :
    ∀ (imgs : List Image) (img : Image), lastImageWithKey imgs k = some img →
      img ∈ imgs ∧ ∃ dgst ∈ img.digests, trimSha256 dgst = k
  | [], img, h => by simp [lastImageWithKey] at h
  | img₀ :: rest, img, h => by
    rw [lastImageWithKey_cons] at h
    cases hrest : lastImageWithKey rest k with
    | some img' =>
      rw [hrest] at h
      obtain ⟨hmem, hd⟩ := lastImageWithKey_spec k rest img' hrest
      cases h
      exact ⟨List.mem_cons_of_mem img₀ hmem, hd⟩
    | none =>
      rw [hrest] at h
      by_cases hd : (img₀.digests.any fun dgst => trimSha256 dgst = k) = true
      · rw [if_pos hd] at h
        cases h
        obtain ⟨dgst, hdm, hdk⟩ := List.any_eq_true.mp hd
        exact ⟨List.mem_cons_self _ _, dgst, hdm, by simpa using hdk⟩
      · rw [if_neg hd] at h
        simp at h

theorem mapLookup_digestIndex_mem (imgs : List Image) (k : String) (img : Image)
    (h : mapLookup (digestIndex imgs) k = some img) :
    img ∈ imgs ∧ ∃ dgst ∈ img.digests, trimSha256 dgst = k := by
  rw [mapLookup_digestIndex] at h
  exact lastImageWithKey_spec k imgs img h

/-- Embeds the digest-index construction of the second variant's `scan`
(`main.go` lines 266-272); the loop is textually identical to the first
variant's. -/
def digestIndex2 (allImages : List Image) : List (String × Image) :=
  allImages.foldl
    (fun m img => img.digests.foldl (fun m dgst => mapInsert m (trimSha256 dgst) img) m)
    []

/-- Embeds the `fs.WalkDir` loop of the second variant's `scan` (`main.go`
lines 275-301).  The only textual difference from the first variant's loop
is a `log.Info` call after reading the creation time, which does not affect
the accumulators or the returned value; logging is a no-op in this
embedding. -/
def scanWalk2 (digests : List (String × Image)) (now maxAge : Int) :
    List WalkEntry → List Image → List Image → Except Unit (List Image × List Image)
  | [], nonCompliant, failedImages => .ok (nonCompliant, failedImages)
  | .errEntry :: _, _, _ => .error ()
  | .dirEntry _ :: rest, nonCompliant, failedImages =>
    scanWalk2 digests now maxAge rest nonCompliant failedImages
  | .fileEntry name info :: rest, nonCompliant, failedImages =>
    match mapLookup digests name with
    | none => scanWalk2 digests now maxAge rest nonCompliant failedImages
    | some img =>
      match info with
      | none => scanWalk2 digests now maxAge rest nonCompliant (failedImages ++ [img])
      | some created =>
        if now - created > maxAge then
          scanWalk2 digests now maxAge rest (nonCompliant ++ [img]) failedImages
        else
          scanWalk2 digests now maxAge rest nonCompliant failedImages

/-- Embeds `scan` of the second variant (`main.go` lines 261-310): the same
partition as the first variant, with two additional `log.Info` calls (one
per scanned file, one before returning) that do not affect the result. -/
def scan2 (allImages : List Image) (fsEntries : List WalkEntry) (now maxAge : Int) :
    List Image × List Image :=
  match scanWalk2 (digestIndex2 allImages) now maxAge fsEntries [] [] with
  | .ok res => res
  | .error _ => ([], allImages)

theorem scanWalk2_eq_scanWalk (digests : List (String × Image)) (now maxAge : Int) :
    ∀ (entries : List WalkEntry) (nc fl : List Image),
      scanWalk2 digests now maxAge entries nc fl = scanWalk digests now maxAge entries nc fl
  | [], nc, fl => rfl
  | .errEntry :: rest, nc, fl => rfl
  | .dirEntry name :: rest, nc, fl => by
    rw [scanWalk2, scanWalk, scanWalk2_eq_scanWalk digests now maxAge rest nc fl]
  | .fileEntry name info :: rest, nc, fl => by
    rw [scanWalk2, scanWalk]
    cases mapLookup digests name with
    | none => exact scanWalk2_eq_scanWalk digests now maxAge rest nc fl
    | some img =>
      cases info with
      | none => exact scanWalk2_eq_scanWalk digests now maxAge rest nc (fl ++ [img])
      | some created =>
        exact ite_congr rfl
          (fun _ => scanWalk2_eq_scanWalk digests now maxAge rest (nc ++ [img]) fl)
          (fun _ => scanWalk2_eq_scanWalk digests now maxAge rest nc fl)

/-- Nanoseconds per Go duration unit, as in the `unitMap` of Go's
`time.ParseDuration`: `ns`, `us` (with its two Unicode spellings), `ms`,
`s`, `m`, `h`; any other unit string is unknown. -/
def unitNanos : String → Option Int
  | "ns" => some 1
  | "us" => some 1000
  | "µs" => some 1000
  | "μs" => some 1000
  | "ms" => some 1000000
  | "s" => some 1000000000
  | "m" => some 60000000000
  | "h" => some 3600000000000
  | _ => none

/-- Numeric value of a run of decimal digits, most significant first. -/
def digitsToInt (ds : List Char) : Int :=
  ds.foldl (fun acc c => acc * 10 + (Int.ofNat c.toNat - 48)) 0

/-- One step of Go `time.ParseDuration`'s main loop per remaining character
list: consume leading digits, an optional fractional part, and a unit, and
add the scaled value to the accumulator.  Errors (`none`) where Go errors:
no digits before or after the decimal point, a missing unit, or an unknown
unit.  The fractional contribution is computed with integer division
instead of Go's `float64` arithmetic, and the `int64` overflow checks are
omitted; both differences are irrelevant for the inputs considered here. -/
def durationLoop : Nat → Int → List Char → Option Int
  | 0, _, _ => none
  | _ + 1, acc, [] => some acc
  | fuel + 1, acc, s =>
    let ds := s.takeWhile Char.isDigit
    let s1 := s.dropWhile Char.isDigit
    let v := digitsToInt ds
    let fracState : Int × Int × List Char × Bool :=
      match s1 with
      | '.' :: rest =>
        (digitsToInt (rest.takeWhile Char.isDigit), Int.ofNat (10 ^ (rest.takeWhile Char.isDigit).length),
          rest.dropWhile Char.isDigit, (rest.takeWhile Char.isDigit) ≠ [])
      | _ => (0, 1, s1, false)
    let f := fracState.1
    let scale := fracState.2.1
    let s2 := fracState.2.2.1
    let post := fracState.2.2.2
    if ds = [] ∧ post = false then none
    else
      let us := s2.takeWhile (fun c => ¬ c.isDigit ∧ c ≠ '.')
      let s3 := s2.dropWhile (fun c => ¬ c.isDigit ∧ c ≠ '.')
      if us = [] then none
      else
        match unitNanos (String.mk us) with
        | none => none
        | some u => durationLoop fuel (acc + v * u + f * u / scale) s3

/-- Embeds Go `time.ParseDuration` on the fragment this program exercises:
an optional sign, the special case `"0"`, and one or more
digits-fraction-unit groups, in nanoseconds (see `durationLoop` for the two
documented deviations).  Returns `none` exactly where Go returns an
error. -/
def parseDuration (s : String) : Option Int :=
  let signState : Bool × List Char :=
    match s.data with
    | '-' :: rest => (true, rest)
    | '+' :: rest => (false, rest)
    | cs => (false, cs)
  let neg := signState.1
  let cs := signState.2
  if cs = ['0'] then some 0
  else if cs = [] then none
  else (durationLoop (cs.length + 1) 0 cs).map (fun d => if neg then -d else d)

example : parseDuration "168h" = some 604800000000000 := by decide
example : parseDuration "abc" = none := by decide
example : parseDuration "7d" = none := by decide
example : parseDuration "" = none := by decide
example : parseDuration "1h30m" = some 5400000000000 := by decide

/-- The default of the package-level `maxAge` variable: `7 * 24 *
time.Hour` in nanoseconds. -/
def defaultMaxAge : Int := 7 * 24 * 3600000000000

/-- Embeds the `maxAge` update in the first variant's `main` (`main.go`
lines 49-55) as a function of the loaded configuration's `MaxAge` string:
when the string is nonempty, Go's `maxAge, err = time.ParseDuration(...)`
assigns the parsed duration on success and the `time.Duration` zero value
on failure (the error is only logged); when the string is empty, `maxAge`
keeps its package-level default. -/
def mainMaxAge (cfgMaxAge : String) : Int :=
  if cfgMaxAge ≠ "" then
    match parseDuration cfgMaxAge with
    | some d => d
    | none => 0
  else defaultMaxAge

/-- The `MaxAge` value of the `Config` literal that the first variant's
`loadConfig` starts from (`main.go` line 138), which is what `c.MaxAge`
remains when the configuration is unreadable or contains no `maxAge`
key. -/
def loadConfigDefaultMaxAge : String := "7d"

/-- The `MaxAge` value of the `Config` literal that the second variant's
`loadConfig` starts from (`main.go` line 313). -/
def loadConfigDefaultMaxAge2 : String := "168h"

/-- Sample image with two digests, used in concrete instances. -/
def imgA : Image := ⟨"sha256:aaa", ["registry.example/a:latest"], ["sha256:d1", "sha256:d2"]⟩

/-- Sample image with the single digest `sha256:d3`. -/
def imgC : Image := ⟨"sha256:ccc", ["registry.example/c:latest"], ["sha256:d3"]⟩

/-- Sample image with an empty digest list. -/
def imgE : Image := ⟨"sha256:eee", [], []⟩

/-- First of two sample images sharing the digest `sha256:d1`. -/
def imgDup1 : Image := ⟨"sha256:111", [], ["sha256:d1"]⟩

/-- Second of two sample images sharing the digest `sha256:d1`. -/
def imgDup2 : Image := ⟨"sha256:222", [], ["sha256:d1"]⟩

/-- Claim C1, counterexample: the two returned lists are not always
disjoint.  With the single input image `imgA` owning digests `d1` and `d2`,
a walked tree containing a file `d1` whose metadata read fails and a file
`d2` older than `maxAge` puts `imgA` in both `failedImages` and
`nonCompliant`. -/
theorem spec_C1_counterexample :
    imgA ∈ (scan [imgA]
        [WalkEntry.fileEntry "d1" none, WalkEntry.fileEntry "d2" (some 0)] 100 10).1 ∧
    imgA ∈ (scan [imgA]
        [WalkEntry.fileEntry "d1" none, WalkEntry.fileEntry "d2" (some 0)] 100 10).2 := by
  decide

/-- Claim C1 (amended): for every input image list and every filesystem
state, every image in either list returned by `scan` is one of the input
images; the disjointness part of the original claim fails (see the
counterexample). -/
theorem spec_C1 (allImages : List Image) (fsEntries : List WalkEntry) (now maxAge : Int)
    (img : Image)
    (h : img ∈ (scan allImages fsEntries now maxAge).1 ∨
      img ∈ (scan allImages fsEntries now maxAge).2) :
    img ∈ allImages := by
  by_cases herr : WalkEntry.errEntry ∈ fsEntries
  · rw [scan_of_err allImages fsEntries now maxAge herr] at h
    rcases h with h | h
    · simp at h
    · exact h
  · rw [scan_of_noErr allImages fsEntries now maxAge herr] at h
    rcases h with h | h
    · obtain ⟨name, created, _, hl, _⟩ :=
        (mem_collectNC (digestIndex allImages) now maxAge img fsEntries).mp h
      exact (mapLookup_digestIndex_mem allImages name img hl).1
    · obtain ⟨name, _, hl⟩ :=
        (mem_collectFailed (digestIndex allImages) img fsEntries).mp h
      exact (mapLookup_digestIndex_mem allImages name img hl).1

/-- Witness for claim C1 at a concrete input: `imgA` is reported
non-compliant, and the theorem places it among the inputs. -/
theorem spec_C1_witness :
    (imgA ∈ (scan [imgA] [WalkEntry.fileEntry "d2" (some 0)] 100 10).1 ∨
      imgA ∈ (scan [imgA] [WalkEntry.fileEntry "d2" (some 0)] 100 10).2) ∧
    imgA ∈ [imgA] :=
  ⟨Or.inl (by decide),
    spec_C1 [imgA] [WalkEntry.fileEntry "d2" (some 0)] 100 10 imgA (Or.inl (by decide))⟩

/-- Claim C2: when the filesystem traversal fails, `scan` returns the empty
`nonCompliant` list and the full input image list, in input order, as
`failedImages`. -/
theorem spec_C2 (allImages : List Image) (fsEntries : List WalkEntry) (now maxAge : Int)
    (h : WalkEntry.errEntry ∈ fsEntries) :
    scan allImages fsEntries now maxAge = ([], allImages) :=
  scan_of_err allImages fsEntries now maxAge h

/-- Witness for claim C2 at a concrete input: a walk hitting an error
yields the all-failed partition over both input images. -/
theorem spec_C2_witness :
    WalkEntry.errEntry ∈ [WalkEntry.fileEntry "d1" (some 0), WalkEntry.errEntry] ∧
    scan [imgA, imgC] [WalkEntry.fileEntry "d1" (some 0), WalkEntry.errEntry] 100 10 =
      ([], [imgA, imgC]) :=
  ⟨by decide,
    spec_C2 [imgA, imgC] [WalkEntry.fileEntry "d1" (some 0), WalkEntry.errEntry] 100 10
      (by decide)⟩

/-- Claim C3, counterexample: an image with a digest matching an old
regular file need not appear in `nonCompliant`.  `imgDup1` owns digest
`sha256:d1` and the walked tree's file `d1` is older than `maxAge`, yet the
later input `imgDup2` owns the same digest, so the index attributes the
file to `imgDup2` and `imgDup1` is absent from the returned
`nonCompliant` list. -/
theorem spec_C3_counterexample :
    "sha256:d1" ∈ imgDup1.digests ∧
    trimSha256 "sha256:d1" = "d1" ∧
    WalkEntry.errEntry ∉ [WalkEntry.fileEntry "d1" (some 0)] ∧
    WalkEntry.fileEntry "d1" (some 0) ∈ [WalkEntry.fileEntry "d1" (some 0)] ∧
    (100 : Int) - 0 > 10 ∧
    imgDup1 ∉ (scan [imgDup1, imgDup2] [WalkEntry.fileEntry "d1" (some 0)] 100 10).1 := by
  decide

/-- Claim C3 (amended): when the traversal succeeds, the image to which the
digest index maps the base name of a walked regular file whose age exceeds
`maxAge` (the last input image owning that digest) appears in the
`nonCompliant` list returned by `scan`. -/
theorem spec_C3 (allImages : List Image) (fsEntries : List WalkEntry) (now maxAge : Int)
    (img : Image) (name : String) (created : Int)
    (herr : WalkEntry.errEntry ∉ fsEntries)
    (hfile : WalkEntry.fileEntry name (some created) ∈ fsEntries)
    (hidx : mapLookup (digestIndex allImages) name = some img)
    (hage : now - created > maxAge) :
    img ∈ (scan allImages fsEntries now maxAge).1 := by
  rw [scan_of_noErr allImages fsEntries now maxAge herr]
  exact (mem_collectNC (digestIndex allImages) now maxAge img fsEntries).mpr
    ⟨name, created, hfile, hidx, hage⟩

/-- Witness for claim C3 at a concrete input: the index maps `d1` to the
later duplicate owner `imgDup2`, whose matching file is old, and `imgDup2`
is reported non-compliant. -/
theorem spec_C3_witness :
    WalkEntry.errEntry ∉ [WalkEntry.fileEntry "d1" (some 0)] ∧
    mapLookup (digestIndex [imgDup1, imgDup2]) "d1" = some imgDup2 ∧
    (100 : Int) - 0 > 10 ∧
    imgDup2 ∈ (scan [imgDup1, imgDup2] [WalkEntry.fileEntry "d1" (some 0)] 100 10).1 :=
  ⟨by decide, by decide, by decide,
    spec_C3 [imgDup1, imgDup2] [WalkEntry.fileEntry "d1" (some 0)] 100 10 imgDup2 "d1" 0
      (by decide) (by decide) (by decide) (by decide)⟩

/-- Claim C4, counterexample: an image whose only matching file is fresh
and readable can still be reported.  `imgC`'s only matching file `d3` has
age `5 ≤ maxAge = 10` with readable metadata, but a later walk error makes
the whole scan return the all-failed partition, so `imgC` appears in the
`failedImages` list. -/
theorem spec_C4_counterexample :
    (100 : Int) - 95 ≤ 10 ∧
    imgC ∈ (scan [imgC]
        [WalkEntry.fileEntry "d3" (some 95), WalkEntry.errEntry] 100 10).2 := by
  decide

/-- Claim C4 (amended): when the traversal succeeds, an image all of whose
matching files have readable metadata and age at most `maxAge` appears in
neither returned list; the age comparison is strict, so age exactly equal
to `maxAge` is not reported (the witness exercises this boundary). -/
theorem spec_C4 (allImages : List Image) (fsEntries : List WalkEntry) (now maxAge : Int)
    (img : Image)
    (herr : WalkEntry.errEntry ∉ fsEntries)
    (hmeta : ∀ name, WalkEntry.fileEntry name none ∈ fsEntries →
      mapLookup (digestIndex allImages) name ≠ some img)
    (hfresh : ∀ name created, WalkEntry.fileEntry name (some created) ∈ fsEntries →
      mapLookup (digestIndex allImages) name = some img → now - created ≤ maxAge) :
    img ∉ (scan allImages fsEntries now maxAge).1 ∧
    img ∉ (scan allImages fsEntries now maxAge).2 := by
  rw [scan_of_noErr allImages fsEntries now maxAge herr]
  constructor
  · intro hmem
    obtain ⟨name, created, hfile, hl, hage⟩ :=
      (mem_collectNC (digestIndex allImages) now maxAge img fsEntries).mp hmem
    exact absurd hage (not_lt.mpr (hfresh name created hfile hl))
  · intro hmem
    obtain ⟨name, hfile, hl⟩ :=
      (mem_collectFailed (digestIndex allImages) img fsEntries).mp hmem
    exact hmeta name hfile hl

/-- Witness for claim C4 at a concrete input whose file age equals `maxAge`
exactly: `imgC` appears in neither returned list. -/
theorem spec_C4_witness :
    imgC ∉ (scan [imgC] [WalkEntry.fileEntry "d3" (some 90)] 100 10).1 ∧
    imgC ∉ (scan [imgC] [WalkEntry.fileEntry "d3" (some 90)] 100 10).2 :=
  spec_C4 [imgC] [WalkEntry.fileEntry "d3" (some 90)] 100 10 imgC (by decide)
    (by
      intro name hmem
      rw [List.mem_singleton] at hmem
      simp at hmem)
    (by
      intro name created hmem hl
      rw [List.mem_singleton] at hmem
      injection hmem with h1 h2
      injection h2 with h2
      subst h2
      decide)

/-- Claim C5: when a matched file's metadata read fails, the walk step
appends the matched image to `failedImages`, leaves `nonCompliant`
untouched, and continues with the remaining entries unchanged. -/
theorem spec_C5 (digests : List (String × Image)) (now maxAge : Int) (name : String)
    (img : Image) (rest : List WalkEntry) (nonCompliant failedImages : List Image)
    (h : mapLookup digests name = some img) :
    scanWalk digests now maxAge (WalkEntry.fileEntry name none :: rest)
        nonCompliant failedImages =
      scanWalk digests now maxAge rest nonCompliant (failedImages ++ [img]) := by
  rw [scanWalk, h]

/-- Witness for claim C5 at a concrete input: a metadata failure on `d3`
turns into an append of `imgC` to the failed accumulator. -/
theorem spec_C5_witness :
    mapLookup (digestIndex [imgC]) "d3" = some imgC ∧
    scanWalk (digestIndex [imgC]) 100 10 [WalkEntry.fileEntry "d3" none] [] [] =
      scanWalk (digestIndex [imgC]) 100 10 [] [] ([] ++ [imgC]) :=
  ⟨by decide, spec_C5 (digestIndex [imgC]) 100 10 "d3" imgC [] [] [] (by decide)⟩

/-- Claim C6: when the traversal succeeds, an image with an empty digest
list, or none of whose stripped digests equals the base name of any walked
file, appears in neither returned list. -/
theorem spec_C6 (allImages : List Image) (fsEntries : List WalkEntry) (now maxAge : Int)
    (img : Image)
    (herr : WalkEntry.errEntry ∉ fsEntries)
    (hnone : img.digests = [] ∨
      ∀ dgst ∈ img.digests, ∀ name info, WalkEntry.fileEntry name info ∈ fsEntries →
        trimSha256 dgst ≠ name) :
    img ∉ (scan allImages fsEntries now maxAge).1 ∧
    img ∉ (scan allImages fsEntries now maxAge).2 := by
  rw [scan_of_noErr allImages fsEntries now maxAge herr]
  constructor
  · intro hmem
    obtain ⟨name, created, hfile, hl, _⟩ :=
      (mem_collectNC (digestIndex allImages) now maxAge img fsEntries).mp hmem
    obtain ⟨_, dgst, hdm, hdk⟩ := mapLookup_digestIndex_mem allImages name img hl
    rcases hnone with hnil | hno
    · rw [hnil] at hdm
      simp at hdm
    · exact hno dgst hdm name (some created) hfile hdk
  · intro hmem
    obtain ⟨name, hfile, hl⟩ :=
      (mem_collectFailed (digestIndex allImages) img fsEntries).mp hmem
    obtain ⟨_, dgst, hdm, hdk⟩ := mapLookup_digestIndex_mem allImages name img hl
    rcases hnone with hnil | hno
    · rw [hnil] at hdm
      simp at hdm
    · exact hno dgst hdm name none hfile hdk

/-- Witness for claim C6 at a concrete input: the digest-less `imgE` is
absent from both lists of a successful scan that reports `imgC`. -/
theorem spec_C6_witness :
    imgE ∉ (scan [imgE, imgC] [WalkEntry.fileEntry "d3" (some 0)] 100 10).1 ∧
    imgE ∉ (scan [imgE, imgC] [WalkEntry.fileEntry "d3" (some 0)] 100 10).2 :=
  spec_C6 [imgE, imgC] [WalkEntry.fileEntry "d3" (some 0)] 100 10 imgE (by decide)
    (Or.inl rfl)

/-- Claim C7: looking up any key in the digest index built by `scan` finds
exactly the last image in input order owning a digest whose bare
(prefix-stripped) form is that key — last-write-wins over input order —
and any image found owns such a digest and is an input image. -/
theorem spec_C7 (allImages : List Image) (key : String) :
    mapLookup (digestIndex allImages) key = lastImageWithKey allImages key ∧
    ∀ img, mapLookup (digestIndex allImages) key = some img →
      img ∈ allImages ∧ ∃ dgst ∈ img.digests, trimSha256 dgst = key :=
  ⟨mapLookup_digestIndex allImages key,
    fun img h => mapLookup_digestIndex_mem allImages key img h⟩

/-- Witness for claim C7 at a concrete input: with two images sharing
digest `sha256:d1`, the index retains the later one, `imgDup2`. -/
theorem spec_C7_witness :
    mapLookup (digestIndex [imgDup1, imgDup2]) "d1" =
      lastImageWithKey [imgDup1, imgDup2] "d1" ∧
    lastImageWithKey [imgDup1, imgDup2] "d1" = some imgDup2 :=
  ⟨(spec_C7 [imgDup1, imgDup2] "d1").1, by decide⟩

/-- Claim C8: the configured string `"168h"` parses to the 168-hour
threshold and the empty (unset) string keeps the 168-hour default, but an
invalid duration string does not fall back to the default: Go's
`maxAge, err = time.ParseDuration(...)` zeroes `maxAge` on failure, so
`"abc"` — and `"7d"`, the unparsable `loadConfig` default of the first
variant — leave `maxAge = 0`, not 168 hours. -/
theorem spec_C8 :
    parseDuration "168h" = some 604800000000000 ∧
    defaultMaxAge = 604800000000000 ∧
    mainMaxAge "" = defaultMaxAge ∧
    parseDuration "abc" = none ∧
    mainMaxAge "abc" = 0 ∧
    parseDuration loadConfigDefaultMaxAge = none ∧
    mainMaxAge loadConfigDefaultMaxAge = 0 ∧
    mainMaxAge loadConfigDefaultMaxAge2 = defaultMaxAge ∧
    (0 : Int) ≠ defaultMaxAge := by
  decide

/-- Claim C9: a walk-callback error on any single entry, wherever it occurs
in the traversal, makes `scan` discard every classification accumulated
before it and return the all-failed partition. -/
theorem spec_C9 (allImages : List Image) (pre post : List WalkEntry) (now maxAge : Int) :
    scan allImages (pre ++ WalkEntry.errEntry :: post) now maxAge = ([], allImages) :=
  scan_of_err allImages (pre ++ WalkEntry.errEntry :: post) now maxAge
    (List.mem_append.mpr (Or.inr (List.mem_cons_self _ _)))

/-- Claim C10: the `scan` functions of the two source variants return the
same pair on every input image list, filesystem state, current time, and
`maxAge`; the second differs only in logging. -/
theorem spec_C10 (allImages : List Image) (fsEntries : List WalkEntry) (now maxAge : Int) :
    scan allImages fsEntries now maxAge = scan2 allImages fsEntries now maxAge := by
  have hidx : digestIndex2 allImages = digestIndex allImages := rfl
  rw [scan, scan2, hidx,
    scanWalk2_eq_scanWalk (digestIndex allImages) now maxAge fsEntries [] []]

end EraserScanner
